import Mathlib

/-!
Verification development for the vEdge IP report tool
(`get_vEdgeAddresses.py`, `store_creds.py`).

Python dictionaries are modelled as association lists with insertion-order
semantics (updating an existing key keeps its position, a new key is
appended), matching CPython dict behaviour.  JSON objects whose relevant
fields are strings are modelled as `List (String × String)`.  Exceptions are
modelled with `Except PyErr`; a Python function that can raise returns
`Except PyErr α`.
-/

namespace VEdge

/-- Python exception kinds that the modelled code can raise. -/
inductive PyErr where
  | keyError (k : String)
  | indexError
  | typeError
  | valueError
  | attributeError
  | binasciiError
  | zlibError
  | unicodeError
deriving DecidableEq, Repr

/-- Dictionary lookup, `d[k]` / `d.get(k)`: first binding of the key wins
(with `dinsert` keys stay unique, so this is dict lookup). -/
def dget {α : Type} : List (String × α) → String → Option α
  | [], _ => none
  | (k, v) :: rest, key => if key = k then some v else dget rest key

/-- Dictionary update `d[k] = v`: replaces the value at an existing key in
place, otherwise appends the new binding, exactly like a CPython dict. -/
def dinsert {α : Type} : List (String × α) → String → α → List (String × α)
  | [], key, val => [(key, val)]
  | (k, v) :: rest, key, val =>
    if key = k then (k, val) :: rest else (k, v) :: dinsert rest key val

/-! ### IPv4 parsing — model of `ipaddress.ip_network(address, strict=False)`

Translated from CPython's `ipaddress` module (`_BaseV4._parse_octet`,
`_ip_int_from_string`, `_make_netmask`, `_prefix_from_prefix_string`,
`_prefix_from_ip_string`, `IPv4Network.__init__` with `strict=False`).
Scope note: the Python entry point would also accept IPv6 textual forms and
integer inputs; the script only ever passes the textual IPv4 interface
addresses returned by vManage, and only the IPv4 grammar is modelled here. -/

/-- Model of `str.split(sep)` for a single-character separator. -/
def py_split (sep : Char) : List Char → List (List Char)
  | [] => [[]]
  | c :: rest =>
    match py_split sep rest with
    | g :: gs => if c = sep then [] :: g :: gs else (c :: g) :: gs
    | [] => [[c]]

/-- Decimal value of a digit list (the digits are validated by the caller). -/
def digitsToNat (cs : List Char) : Nat :=
  cs.foldl (fun a d => a * 10 + (d.toNat - 48)) 0

/-- Model of `_BaseV4._parse_octet`: nonempty, ASCII digits only, at most 3
characters, no leading zero, value at most 255. -/
def parse_octet (cs : List Char) : Option Nat :=
  match cs with
  | [] => none
  | c :: rest =>
    if !((c :: rest).all Char.isDigit) then none
    else if 3 < (c :: rest).length then none
    else if c = '0' && !rest.isEmpty then none
    else
      let n := digitsToNat (c :: rest)
      if 255 < n then none else some n

/-- Model of `_BaseV4._ip_int_from_string`: exactly four dot-separated
octets, combined big-endian. -/
def ip_int_from_chars (cs : List Char) : Option Nat :=
  match py_split '.' cs with
  | [o1, o2, o3, o4] =>
    match parse_octet o1, parse_octet o2, parse_octet o3, parse_octet o4 with
    | some a, some b, some c, some d => some (((a * 256 + b) * 256 + c) * 256 + d)
    | _, _, _, _ => none
  | _ => none

def V4_ALL_ONES : Nat := 2 ^ 32 - 1

/-- Model of `_prefix_from_prefix_string`: ASCII digits only (so no sign or
whitespace), value between 0 and 32. -/
def prefix_from_prefix_chars (cs : List Char) : Option Nat :=
  if cs.isEmpty || !(cs.all Char.isDigit) then none
  else
    let p := digitsToNat cs
    if 32 < p then none else some p

/-- Model of `_count_righthand_zero_bits` specialised to 32 bits. -/
def count_right_zero_bits (fuel : Nat) (n : Nat) : Nat :=
  match fuel with
  | 0 => 0
  | f + 1 => if n % 2 = 1 then 0 else 1 + count_right_zero_bits f (n / 2)

/-- Model of `_prefix_from_ip_int`: accept an integer that is a valid
netmask (ones followed by zeroes) and return its prefix length. -/
def prefix_from_ip_int (ip_int : Nat) : Option Nat :=
  let tz := count_right_zero_bits 32 ip_int
  let plen := 32 - tz
  let leading := ip_int >>> tz
  if leading = (1 <<< plen) - 1 then some plen else none

/-- Model of `IPv4Network._make_netmask` on a string argument: first try a
prefix-length string, then a dotted netmask, then a dotted hostmask. -/
def make_netmask (cs : List Char) : Option Nat :=
  match prefix_from_prefix_chars cs with
  | some p => some p
  | none =>
    match ip_int_from_chars cs with
    | none => none
    | some ip =>
      match prefix_from_ip_int ip with
      | some p => some p
      | none => prefix_from_ip_int (ip ^^^ V4_ALL_ONES)

/-- Integer netmask with the high `p` bits set (`_ip_int_from_prefix`). -/
def netmask_int (p : Nat) : Nat := V4_ALL_ONES ^^^ (V4_ALL_ONES >>> p)

/-- An `ipaddress.IPv4Network` value: the (already masked, since
`strict=False`) network address and the prefix length. -/
structure IPv4Network where
  network_address : Nat
  prefixlen : Nat
deriving DecidableEq, Repr

/-- Model of `ipaddress.ip_network(address, strict=False)` restricted to the
IPv4 grammar: at most one `/`, address part a dotted quad, optional mask
part a prefix length or a dotted net/hostmask; host bits are masked off. -/
def ip_network (address : String) : Option IPv4Network :=
  match py_split '/' address.toList with
  | [a] =>
    match ip_int_from_chars a with
    | some ip => some ⟨ip &&& netmask_int 32, 32⟩
    | none => none
  | [a, m] =>
    match ip_int_from_chars a, make_netmask m with
    | some ip, some p => some ⟨ip &&& netmask_int p, p⟩
    | _, _ => none
  | _ => none

def hostmask_int (p : Nat) : Nat := netmask_int p ^^^ V4_ALL_ONES

/-- Broadcast address of a network (`network_address | hostmask`). -/
def broadcast_int (net : IPv4Network) : Nat :=
  net.network_address ||| hostmask_int net.prefixlen

/-- Model of `address in network` (`_BaseNetwork.__contains__`). -/
def address_in_network (a : Nat) (net : IPv4Network) : Bool :=
  net.network_address ≤ a && a ≤ broadcast_int net

/-- The `IPv4Network` constants of `ipaddress._IPv4Constants._private_networks`
(CPython 3.11), built exactly as CPython builds them, by parsing. -/
def private_networks : List IPv4Network :=
  (["0.0.0.0/8", "10.0.0.0/8", "127.0.0.0/8", "169.254.0.0/16", "172.16.0.0/12",
    "192.0.0.0/29", "192.0.0.170/31", "192.0.2.0/24", "192.168.0.0/16",
    "198.18.0.0/15", "198.51.100.0/24", "203.0.113.0/24", "240.0.0.0/4",
    "255.255.255.255/32"]).filterMap ip_network

/-- Model of `IPv4Address.is_private`: membership in any private constant. -/
def address_is_private (a : Nat) : Bool :=
  private_networks.any (address_in_network a)

/-- Model of `_BaseNetwork.is_private`: both the network address and the
broadcast address are private. -/
def network_is_private (net : IPv4Network) : Bool :=
  address_is_private net.network_address && address_is_private (broadcast_int net)

/-- Model of `is_ipv4` (`get_vEdgeAddresses.py`): `True` exactly when
`ipaddress.ip_network(address, strict=False)` does not raise `ValueError`. -/
def is_ipv4 (address : String) : Bool := (ip_network address).isSome

/-- Privacy classification of an address string via its parsed network;
`false` when the string does not parse. -/
def addr_private (address : String) : Bool :=
  match ip_network address with
  | some net => network_is_private net
  | none => false

/-! ### JSON values and the HTTP fetcher (`fetch_raw_json`) -/

/-- JSON values, for the body of an HTTP response. -/
inductive JsonVal where
  | jnull
  | jbool (b : Bool)
  | jnum (n : Int)
  | jstr (s : String)
  | jarr (xs : List JsonVal)
  | jobj (fields : List (String × JsonVal))

/-- The outcome of `requests.get`: either a `RequestException` during
transport (connection error, timeout, redirect loop, …) or a delivered
response with a final status code and a body (`none` when the body is not
well-formed JSON, in which case `response.json()` raises
`requests.exceptions.JSONDecodeError`, a `RequestException` subclass in
requests ≥ 2.27 as used here). -/
inductive HttpResult where
  | transportError
  | response (status : Nat) (body : Option JsonVal)

/-- Model of `fetch_raw_json`: `raise_for_status` raises `HTTPError` (a
`RequestException`) exactly for status codes 400–599; every
`RequestException` is caught and yields `[]`.  On a dict body the result is
`body.get('data', [])`; calling `.get` on a non-dict JSON value raises
`AttributeError`, which the function does not catch. -/
def fetch_raw_json (r : HttpResult) : Except PyErr JsonVal :=
  match r with
  | .transportError => .ok (.jarr [])
  | .response status body =>
    if 400 ≤ status ∧ status < 600 then .ok (.jarr [])
    else
      match body with
      | none => .ok (.jarr [])
      | some (.jobj fields) => .ok ((dget fields "data").getD (.jarr []))
      | some _ => .error .attributeError

/-! ### Device records and `format_device_data`

A raw device from the `data` array is modelled as a JSON object whose
relevant fields are strings (`List (String × String)`).  A formatted device
record maps field names to values; after enrichment the `interfaces` key
holds a nested dictionary, so record values are a sum of the two shapes. -/

/-- A value in a formatted device record: a plain string field, or the
nested `interfaces` dictionary. -/
inductive Field where
  | str (s : String)
  | table (m : List (String × String))
deriving DecidableEq, Repr

abbrev StrDict := List (String × String)
abbrev DevRec := List (String × Field)
abbrev DevDict := List (String × DevRec)

/-- The record `{key: device.get(key, "N/A") for key in keys}` built for one
raw device. -/
def mkRecord (keys : List String) (device : StrDict) : DevRec :=
  keys.foldl (fun dd key => dinsert dd key (Field.str ((dget device key).getD "N/A"))) []

/-- The loop of `format_device_data`: `device['system-ip']` raises
`KeyError` when absent; otherwise `devices[system_ip] = device_data`. -/
def format_go (keys : List String) : List StrDict → DevDict → Except PyErr DevDict
  | [], devices => .ok devices
  | device :: rest, devices =>
    match dget device "system-ip" with
    | none => .error (.keyError "system-ip")
    | some system_ip => format_go keys rest (dinsert devices system_ip (mkRecord keys device))

/-- Model of `format_device_data`. -/
def format_device_data (raw_devices : List StrDict) (keys : List String) :
    Except PyErr DevDict :=
  format_go keys raw_devices []

/-- The last raw device in list order carrying the given `system-ip`: the
record that wins in the formatted dictionary when the key is duplicated. -/
def lastMatch : List StrDict → String → Option StrDict
  | [], _ => none
  | d :: raw, s =>
    match lastMatch raw s with
    | some d2 => some d2
    | none => if dget d "system-ip" = some s then some d else none

/-! ### The interface enricher (`add_interface_info`)

The per-device interface list returned by `fetch_raw_json` is passed in as
`fetch : String → List StrDict` (device id to the fetched JSON records,
whose relevant fields — `ifname`, `ip-address` — are strings). -/

/-- Model of `devices[device]['interfaces'][ifname] = addr`: look up the
device record (`KeyError` if absent), look up its `interfaces` value
(`KeyError` if absent, `TypeError` if item assignment hits a string), and
update the nested dictionary. -/
def set_interface (devs : DevDict) (dkey ifname addr : String) : Except PyErr DevDict :=
  match dget devs dkey with
  | none => .error (.keyError dkey)
  | some r =>
    match dget r "interfaces" with
    | none => .error (.keyError "interfaces")
    | some (.str _) => .error .typeError
    | some (.table m) =>
      .ok (dinsert devs dkey (dinsert r "interfaces" (Field.table (dinsert m ifname addr))))

/-- The inner loop of `add_interface_info` over one device's fetched
interface records, threading the whole device dictionary like the Python
code does.  `interface['ifname']` and (when not ignored)
`interface['ip-address']` raise `KeyError` when absent; a non-parsing
address is skipped; a private address is skipped; otherwise the pair is
recorded.  The `ValueError` arm mirrors the re-parse on line 119, which is
unreachable because it is guarded by `is_ipv4`. -/
def interfaces_go (ignore : List String) (dkey : String) :
    List StrDict → DevDict → Except PyErr DevDict
  | [], devs => .ok devs
  | intf :: rest, devs =>
    match dget intf "ifname" with
    | none => .error (.keyError "ifname")
    | some ifname =>
      if ifname ∈ ignore then interfaces_go ignore dkey rest devs
      else
        match dget intf "ip-address" with
        | none => .error (.keyError "ip-address")
        | some addr =>
          if is_ipv4 addr then
            match ip_network addr with
            | none => .error .valueError
            | some net =>
              if network_is_private net then interfaces_go ignore dkey rest devs
              else
                match set_interface devs dkey ifname addr with
                | .error e => .error e
                | .ok devs2 => interfaces_go ignore dkey rest devs2
          else interfaces_go ignore dkey rest devs

/-- One iteration of the outer loop of `add_interface_info`:
`devices[device]['interfaces'] = {}` then the inner loop. -/
def device_step (fetch : String → List StrDict) (ignore : List String)
    (devs : DevDict) (dkey : String) : Except PyErr DevDict :=
  match dget devs dkey with
  | none => .error (.keyError dkey)
  | some r =>
    interfaces_go ignore dkey (fetch dkey) (dinsert devs dkey (dinsert r "interfaces" (Field.table [])))

/-- The outer loop of `add_interface_info` over the device keys. -/
def add_go (fetch : String → List StrDict) (ignore : List String) :
    List String → DevDict → Except PyErr DevDict
  | [], devs => .ok devs
  | dkey :: rest, devs =>
    match device_step fetch ignore devs dkey with
    | .error e => .error e
    | .ok devs2 => add_go fetch ignore rest devs2

/-- Model of `add_interface_info`.  Python iterates over the dict's keys
(which do not change during the loop) while updating the values. -/
def add_interface_info (devices : DevDict) (fetch : String → List StrDict)
    (ignore_interface_list : List String) : Except PyErr DevDict :=
  add_go fetch ignore_interface_list (devices.map Prod.fst) devices

/-- Specification-side pure computation of one device's final `interfaces`
dictionary, used to state what `add_interface_info` puts there. -/
def table_go (ignore : List String) : List StrDict → StrDict → Except PyErr StrDict
  | [], tbl => .ok tbl
  | intf :: rest, tbl =>
    match dget intf "ifname" with
    | none => .error (.keyError "ifname")
    | some ifname =>
      if ifname ∈ ignore then table_go ignore rest tbl
      else
        match dget intf "ip-address" with
        | none => .error (.keyError "ip-address")
        | some addr =>
          if is_ipv4 addr then
            match ip_network addr with
            | none => .error .valueError
            | some net =>
              if network_is_private net then table_go ignore rest tbl
              else table_go ignore rest (dinsert tbl ifname addr)
          else table_go ignore rest tbl

/-- The final `interfaces` dictionary built from one device's fetched
interface records. -/
def device_interfaces (ignore : List String) (intfs : List StrDict) : Except PyErr StrDict :=
  table_go ignore intfs []

/-- The effect of `add_interface_info` on a single device entry. -/
def enrich_entry (fetch : String → List StrDict) (ignore : List String)
    (p : String × DevRec) : Except PyErr (String × DevRec) :=
  Except.map (fun t => (p.1, dinsert p.2 "interfaces" (Field.table t)))
    (device_interfaces ignore (fetch p.1))

/-- Effectful map over `Except`, written by explicit recursion for easy unfolding. -/
def mapE {α β : Type} (f : α → Except PyErr β) : List α → Except PyErr (List β)
  | [] => .ok []
  | x :: xs =>
    match f x with
    | .error e => .error e
    | .ok y =>
      match mapE f xs with
      | .error e => .error e
      | .ok ys => .ok (y :: ys)

/-- The interface table stored in a record (empty when absent or not a
table), a total accessor used to state the claims. -/
def interfaces_table (r : DevRec) : StrDict :=
  match dget r "interfaces" with
  | some (.table m) => m
  | _ => []

/-- The address recorded for interface `n` of device `dkey` in the enriched
output. -/
def out_interface (out : DevDict) (dkey n : String) : Option String :=
  match dget out dkey with
  | some r => dget (interfaces_table r) n
  | none => none

/-! ### Text helpers shared by the exporters and the credential store -/

/-- The ASCII whitespace characters stripped by Python's `str.strip()`
(the script's data never contains non-ASCII whitespace). -/
def pyIsSpace (c : Char) : Bool :=
  c = ' ' || c = '\t' || c = '\n' || c = '\r' || c = '\x0b' || c = '\x0c'

/-- Model of `str.strip()`. -/
def pyStrip (s : String) : String :=
  String.mk (((s.toList.dropWhile pyIsSpace).reverse.dropWhile pyIsSpace).reverse)

/-- Rendering of a record value by a Python f-string: `str()` of the value.
For the nested dictionary this is the dict repr (inner string escaping is
not modelled; the claims never render a dict). -/
def fieldText : Field → String
  | .str s => s
  | .table m =>
    "\x7b" ++ String.intercalate ", "
      (m.map (fun p => "\x27" ++ p.1 ++ "\x27: \x27" ++ p.2 ++ "\x27")) ++ "\x7d"

/-- Truthiness of `data.get('interfaces')` in Python: missing, empty dict
and empty string are falsy. -/
def truthy_interfaces (r : DevRec) : Bool :=
  match dget r "interfaces" with
  | some (.table m) => !m.isEmpty
  | some (.str s) => !(s = "")
  | none => false

/-! ### The report writers

Only the row emission is modelled: which devices produce a data row and
with which cells.  Workbook/worksheet management and file output are pure
I/O plumbing. -/

/-- The data row `export_to_excel` writes for one device: the requested key
cells (missing keys become `"N/A"`), and — only when `data.get('interfaces')`
is truthy — the two newline-joined, stripped interface cells. -/
def excelRowOf (keys : List String) (data : DevRec) : List Field :=
  let base := keys.map (fun h => (dget data h).getD (Field.str "N/A"))
  match dget data "interfaces" with
  | some (.table m) =>
    if m.isEmpty then base
    else
      base ++ [Field.str (pyStrip (String.join (m.map (fun q => q.1 ++ "\n")))),
               Field.str (pyStrip (String.join (m.map (fun q => q.2 ++ "\n"))))]
  | _ => base

/-- The device loop of `export_to_excel`: one row per device; iterating
`.items()` on a truthy non-dict `interfaces` raises `AttributeError`. -/
def excel_go (keys : List String) : DevDict → List (List Field) → Except PyErr (List (List Field))
  | [], rows => .ok rows
  | p :: rest, rows =>
    let base := keys.map (fun h => (dget p.2 h).getD (Field.str "N/A"))
    match dget p.2 "interfaces" with
    | some (.table m) =>
      if m.isEmpty then excel_go keys rest (rows ++ [base])
      else
        excel_go keys rest
          (rows ++ [base ++ [Field.str (pyStrip (String.join (m.map (fun q => q.1 ++ "\n")))),
                             Field.str (pyStrip (String.join (m.map (fun q => q.2 ++ "\n"))))]])
    | some (.str s) => if s = "" then excel_go keys rest (rows ++ [base]) else .error .attributeError
    | none => excel_go keys rest (rows ++ [base])

/-- The data rows of the spreadsheet, in device order. -/
def export_to_excel_rows (devices : DevDict) (keys : List String) :
    Except PyErr (List (List Field)) :=
  excel_go keys devices []

/-- The `<tr>` string `export_to_html` writes for one device. -/
def htmlRowOf (keys : List String) (data : DevRec) : String :=
  let row_data := String.join
    (keys.map (fun k => "<td>" ++ fieldText ((dget data k).getD (Field.str "N/A")) ++ "</td>"))
  let names := String.intercalate "<br>" ((interfaces_table data).map Prod.fst)
  let addrs := String.intercalate "<br>" ((interfaces_table data).map Prod.snd)
  "\t\t\t<tr>" ++ row_data ++ "<td>" ++ names ++ "</td><td>" ++ addrs ++ "</td></tr>\r"

/-- The device loop of `export_to_html`: a data row only when
`data.get('interfaces')` is truthy; `.keys()` on a truthy non-dict raises
`AttributeError`. -/
def html_go (keys : List String) : DevDict → List String → Except PyErr (List String)
  | [], rows => .ok rows
  | p :: rest, rows =>
    match dget p.2 "interfaces" with
    | some (.table m) =>
      if m.isEmpty then html_go keys rest rows
      else html_go keys rest (rows ++ [htmlRowOf keys p.2])
    | some (.str s) => if s = "" then html_go keys rest rows else .error .attributeError
    | none => html_go keys rest rows

/-- The data rows of the HTML table, in device order. -/
def export_to_html_rows (devices : DevDict) (keys : List String) :
    Except PyErr (List String) :=
  html_go keys devices []

/-! ### The credential store (`store_creds.py`)

Byte strings are `List Nat` (each element a byte value).  `zlib.compress`
and `zlib.decompress` are external C library functions and cannot be
translated; theorems take the pair as parameters together with the
inverse property zlib documents (`decompress` raises `zlib.error` on
data it cannot decompress, hence `Option`).  URL-safe base64 is modelled
in full. -/

/-- The URL-safe base64 alphabet as byte values. -/
def b64bytes : List Nat :=
  "ABCDEFGHIJKLMNOPQRSTUVWXYZabcdefghijklmnopqrstuvwxyz0123456789-_".toList.map Char.toNat

/-- The alphabet byte for a 6-bit group. -/
def b64byte (n : Nat) : Nat := b64bytes.getD n 65

/-- Decoding table lookup; `=` (61) and any byte outside the alphabet have
no index. -/
def b64index (x : Nat) : Option Nat := b64bytes.findIdx? (fun y => y = x)

/-- Model of `base64.urlsafe_b64encode` on a byte string. -/
def b64e : List Nat → List Nat
  | [] => []
  | [a] => [b64byte (a / 4), b64byte (a % 4 * 16), 61, 61]
  | [a, b] => [b64byte (a / 4), b64byte (a % 4 * 16 + b / 16), b64byte (b % 16 * 4), 61]
  | a :: b :: c :: rest =>
    b64byte (a / 4) :: b64byte (a % 4 * 16 + b / 16) :: b64byte (b % 16 * 4 + c / 64) ::
      b64byte (c % 64) :: b64e rest

/-- Model of `base64.urlsafe_b64decode` on canonically padded input
(`binascii.Error`, i.e. `none`, otherwise; CPython's discarding of
non-alphabet bytes before grouping is not modelled — the script only
decodes canonical encodings it produced itself). -/
def b64d : List Nat → Option (List Nat)
  | [] => some []
  | c1 :: c2 :: c3 :: c4 :: rest =>
    match b64index c1, b64index c2 with
    | some i1, some i2 =>
      if c3 = 61 then
        if c4 = 61 && rest.isEmpty then some [i1 * 4 + i2 / 16] else none
      else
        match b64index c3 with
        | some i3 =>
          if c4 = 61 then
            if rest.isEmpty then some [i1 * 4 + i2 / 16, i2 % 16 * 16 + i3 / 4] else none
          else
            match b64index c4 with
            | some i4 =>
              match b64d rest with
              | some bs =>
                some ((i1 * 4 + i2 / 16) :: (i2 % 16 * 16 + i3 / 4) :: (i3 % 4 * 64 + i4) :: bs)
              | none => none
            | none => none
        | none => none
    | _, _ => none
  | _ => none

/-- Model of `encode_pass` (`store_creds.py`): `b64e(zlib.compress(data, 9))`,
with the zlib compressor passed as a parameter. -/
def encode_pass (compress : List Nat → List Nat) (data : List Nat) : List Nat :=
  b64e (compress data)

/-- Model of `decode_pass` (`store_creds.py`): `zlib.decompress(b64d(obscured))`.
Invalid base64 raises `binascii.Error`; undecompressable data raises
`zlib.error`. -/
def decode_pass (decompress : List Nat → Option (List Nat)) (obscured : List Nat) :
    Except PyErr (List Nat) :=
  match b64d obscured with
  | none => .error .binasciiError
  | some z =>
    match decompress z with
    | none => .error .zlibError
    | some d => .ok d

/-- Model of `file.readlines()` on text: split after each newline, keep the
terminators, keep a trailing unterminated line. -/
def readlinesAux : List Char → List Char → List String
  | [], acc => if acc.isEmpty then [] else [String.mk acc.reverse]
  | c :: rest, acc =>
    if c = '\n' then String.mk (acc.reverse ++ ['\n']) :: readlinesAux rest []
    else readlinesAux rest (c :: acc)

def readlines (text : String) : List String := readlinesAux text.toList []

/-- The character with the given ASCII code. -/
def byteChar (b : Nat) : Char := Char.ofNat b

/-- Model of `str.encode('ascii')`: byte values of the characters, raising
`UnicodeEncodeError` on a non-ASCII character. -/
def ascii_encode (s : String) : Except PyErr (List Nat) :=
  if s.toList.all (fun c => c.toNat < 128) then .ok (s.toList.map Char.toNat)
  else .error .unicodeError

/-- Model of `bytes.decode()` restricted to ASCII data (the only data the
script decodes); multi-byte UTF-8 sequences are not modelled and map to the
error case. -/
def ascii_only_decode (bs : List Nat) : Except PyErr String :=
  if bs.all (fun b => b < 128) then .ok (String.mk (bs.map byteChar))
  else .error .unicodeError

/-- One credential-file line decoded:
`decode_pass(line.strip().encode('ascii')).decode()`. -/
def decode_line (decompress : List Nat → Option (List Nat)) (line : String) :
    Except PyErr String :=
  match ascii_encode (pyStrip line) with
  | .error e => .error e
  | .ok raw =>
    match decode_pass decompress raw with
    | .error e => .error e
    | .ok d => ascii_only_decode d

/-- The outcome of `open(file_name, "r")` / reading: an `IOError`, or the
file's text content. -/
inductive ReadResult where
  | ioError
  | content (text : String)

/-- Model of `get_creds` (`store_creds.py`): only `IOError` is caught (and
turned into `("", "")`); `lines[0]` / `lines[1]` raise `IndexError` on a
short file, and the decode pipeline's errors propagate.  Python evaluates
the username line completely before touching `lines[1]`. -/
def get_creds (decompress : List Nat → Option (List Nat)) (file : ReadResult) :
    Except PyErr (String × String) :=
  match file with
  | .ioError => .ok ("", "")
  | .content text =>
    match
      (match (readlines text).get? 0 with
       | some l => decode_line decompress l
       | none => .error .indexError) with
    | .error e => .error e
    | .ok username =>
      match
        (match (readlines text).get? 1 with
         | some l => decode_line decompress l
         | none => .error .indexError) with
      | .error e => .error e
      | .ok password => .ok (username, password)

end VEdge

namespace VEdge

/-! ## Dictionary lemmas -/

theorem dget_dinsert_self {α : Type} (d : List (String × α)) (k : String) (v : α) :
    dget (dinsert d k v) k = some v := by
  induction d with
  | nil => simp [dget, dinsert]
  | cons p rest ih =>
    obtain ⟨k1, v1⟩ := p
    by_cases h : k = k1 <;> simp [dget, dinsert, h, ih]

theorem dget_dinsert_ne {α : Type} (d : List (String × α)) (k k2 : String) (v : α)
    (h : k2 ≠ k) : dget (dinsert d k v) k2 = dget d k2 := by
  induction d with
  | nil => simp [dget, dinsert, h]
  | cons p rest ih =>
    obtain ⟨k1, v1⟩ := p
    by_cases h1 : k = k1
    · subst h1; simp [dget, dinsert, h]
    · by_cases h2 : k2 = k1 <;> simp [dget, dinsert, h1, h2, ih]

theorem dinsert_dinsert {α : Type} (d : List (String × α)) (k : String) (a b : α) :
    dinsert (dinsert d k a) k b = dinsert d k b := by
  induction d with
  | nil => simp [dinsert]
  | cons p rest ih =>
    obtain ⟨k1, v1⟩ := p
    by_cases h : k = k1 <;> simp [dinsert, h, ih]

theorem dinsert_eq_of_dget {α : Type} (d : List (String × α)) (k : String) (v : α)
    (h : dget d k = some v) : dinsert d k v = d := by
  induction d with
  | nil => simp [dget] at h
  | cons p rest ih =>
    obtain ⟨k1, v1⟩ := p
    by_cases h1 : k = k1
    · subst h1
      simp [dget] at h
      simp [dinsert, h]
    · simp [dget, h1] at h
      simp [dinsert, h1, ih h]

theorem mem_dinsert {α : Type} (d : List (String × α)) (k : String) (v : α)
    (x : String × α) (hx : x ∈ dinsert d k v) : x = (k, v) ∨ x ∈ d := by
  induction d with
  | nil => simp [dinsert] at hx; simp [hx]
  | cons p rest ih =>
    obtain ⟨k1, v1⟩ := p
    by_cases h : k = k1
    · subst h
      simp [dinsert] at hx
      rcases hx with h | h
      · left; simp [h]
      · right; simp [h]
    · simp [dinsert, h] at hx
      rcases hx with h2 | h2
      · right; simp [h2]
      · rcases ih h2 with h3 | h3
        · left; exact h3
        · right; simp [h3]

theorem dget_append_right {α : Type} (A B : List (String × α)) (k : String)
    (h : k ∉ A.map Prod.fst) : dget (A ++ B) k = dget B k := by
  induction A with
  | nil => simp
  | cons p rest ih =>
    obtain ⟨k1, v1⟩ := p
    simp only [List.map_cons, List.mem_cons, not_or] at h
    simp [dget, h.1, ih h.2]

theorem dinsert_append_right {α : Type} (A B : List (String × α)) (k : String) (v : α)
    (h : k ∉ A.map Prod.fst) : dinsert (A ++ B) k v = A ++ dinsert B k v := by
  induction A with
  | nil => simp
  | cons p rest ih =>
    obtain ⟨k1, v1⟩ := p
    simp only [List.map_cons, List.mem_cons, not_or] at h
    simp [dinsert, h.1, ih h.2]

theorem dget_cons_self {α : Type} (B : List (String × α)) (k : String) (v : α) :
    dget ((k, v) :: B) k = some v := by simp [dget]

theorem dinsert_cons_self {α : Type} (B : List (String × α)) (k : String) (v w : α) :
    dinsert ((k, v) :: B) k w = (k, w) :: B := by simp [dinsert]

/-- Looking up the key of the `i`-th entry of a dictionary with distinct
keys returns the `i`-th value. -/
theorem dget_get {α : Type} (l : List (String × α)) (hnd : (l.map Prod.fst).Nodup) :
    ∀ (i : Nat) (hi : i < l.length),
      dget l (l.get ⟨i, hi⟩).1 = some (l.get ⟨i, hi⟩).2 := by
  induction l with
  | nil => intro i hi; simp at hi
  | cons p rest ih =>
    obtain ⟨k1, v1⟩ := p
    simp only [List.map_cons, List.nodup_cons] at hnd
    intro i hi
    match i with
    | 0 => simp [dget]
    | j + 1 =>
      have hj : j < rest.length := by simpa using hi
      have hne : (rest.get ⟨j, hj⟩).1 ≠ k1 := by
        intro h
        exact hnd.1 (by rw [← h]; exact List.mem_map_of_mem Prod.fst (List.get_mem rest j hj))
      have hrec := ih hnd.2 j hj
      simp only [List.get_cons_succ]
      simp only [dget, if_neg hne]
      exact hrec

/-! ## `mapE` lemmas -/

theorem mapE_ok_length {α β : Type} (f : α → Except PyErr β) (l : List α) (l2 : List β)
    (h : mapE f l = .ok l2) : l2.length = l.length := by
  induction l generalizing l2 with
  | nil => simp [mapE] at h; simp [← h]
  | cons x xs ih =>
    simp only [mapE] at h
    cases hx : f x with
    | error e => rw [hx] at h; exact absurd h (by simp)
    | ok y =>
      rw [hx] at h
      cases hxs : mapE f xs with
      | error e => rw [hxs] at h; exact absurd h (by simp)
      | ok ys =>
        rw [hxs] at h
        cases h
        simp [ih ys hxs]

theorem mapE_ok_get {α β : Type} (f : α → Except PyErr β) (l : List α) (l2 : List β)
    (h : mapE f l = .ok l2) :
    ∀ (i : Nat) (hi : i < l.length) (hi2 : i < l2.length),
      f (l.get ⟨i, hi⟩) = .ok (l2.get ⟨i, hi2⟩) := by
  induction l generalizing l2 with
  | nil => intro i hi; simp at hi
  | cons x xs ih =>
    simp only [mapE] at h
    cases hx : f x with
    | error e => rw [hx] at h; exact absurd h (by simp)
    | ok y =>
      rw [hx] at h
      cases hxs : mapE f xs with
      | error e => rw [hxs] at h; exact absurd h (by simp)
      | ok ys =>
        rw [hxs] at h
        cases h
        intro i hi hi2
        match i with
        | 0 => simpa using hx
        | j + 1 =>
          have hj : j < xs.length := by simpa using hi
          have hj2 : j < ys.length := by simpa using hi2
          simpa using ih ys hxs j hj hj2

theorem mapE_ok_mem {α β : Type} (f : α → Except PyErr β) (l : List α) (l2 : List β)
    (h : mapE f l = .ok l2) (y : β) (hy : y ∈ l2) : ∃ x ∈ l, f x = .ok y := by
  induction l generalizing l2 with
  | nil => simp [mapE] at h; subst h; simp at hy
  | cons x xs ih =>
    simp only [mapE] at h
    cases hx : f x with
    | error e => rw [hx] at h; exact absurd h (by simp)
    | ok y1 =>
      rw [hx] at h
      cases hxs : mapE f xs with
      | error e => rw [hxs] at h; exact absurd h (by simp)
      | ok ys =>
        rw [hxs] at h
        cases h
        simp at hy
        rcases hy with rfl | hy
        · exact ⟨x, by simp, hx⟩
        · obtain ⟨x2, hx2, hfx2⟩ := ih ys hxs hy
          exact ⟨x2, by simp [hx2], hfx2⟩

theorem mapE_ok_mem_fwd {α β : Type} (f : α → Except PyErr β) (l : List α) (l2 : List β)
    (h : mapE f l = .ok l2) (x : α) (hx : x ∈ l) : ∃ y ∈ l2, f x = .ok y := by
  induction l generalizing l2 with
  | nil => simp at hx
  | cons x1 xs ih =>
    simp only [mapE] at h
    cases hx1 : f x1 with
    | error e => rw [hx1] at h; exact absurd h (by simp)
    | ok y1 =>
      rw [hx1] at h
      cases hxs : mapE f xs with
      | error e => rw [hxs] at h; exact absurd h (by simp)
      | ok ys =>
        rw [hxs] at h
        cases h
        simp at hx
        rcases hx with rfl | hx
        · exact ⟨y1, by simp, hx1⟩
        · obtain ⟨y2, hy2, hfy2⟩ := ih ys hxs hx
          exact ⟨y2, by simp [hy2], hfy2⟩

theorem mapE_error {α β : Type} (f : α → Except PyErr β) (l : List α) (e : PyErr)
    (h : mapE f l = .error e) : ∃ x ∈ l, f x = .error e := by
  induction l with
  | nil => simp [mapE] at h
  | cons x xs ih =>
    simp only [mapE] at h
    cases hx : f x with
    | error e1 =>
      rw [hx] at h
      cases h
      exact ⟨x, by simp, hx⟩
    | ok y =>
      rw [hx] at h
      cases hxs : mapE f xs with
      | error e1 =>
        rw [hxs] at h
        cases h
        obtain ⟨x2, hx2, hfx2⟩ := ih hxs
        exact ⟨x2, by simp [hx2], hfx2⟩
      | ok ys => rw [hxs] at h; exact absurd h (by simp)

/-! ## Bridge: the stateful enricher loops compute the pure per-device tables -/

/-- The inner loop of `add_interface_info` only rewrites the current
device's `interfaces` dictionary, and computes there exactly what
`table_go` computes. -/
theorem interfaces_go_spec (ignore : List String) (dkey : String) :
    ∀ (intfs : List StrDict) (devs : DevDict) (r : DevRec) (t : StrDict),
      dget devs dkey = some r → dget r "interfaces" = some (Field.table t) →
      interfaces_go ignore dkey intfs devs =
        Except.map (fun t2 => dinsert devs dkey (dinsert r "interfaces" (Field.table t2)))
          (table_go ignore intfs t) := by
  intro intfs
  induction intfs with
  | nil =>
    intro devs r t h1 h2
    simp only [interfaces_go, table_go, Except.map]
    rw [dinsert_eq_of_dget r "interfaces" (Field.table t) h2,
        dinsert_eq_of_dget devs dkey r h1]
  | cons intf rest ih =>
    intro devs r t h1 h2
    simp only [interfaces_go, table_go]
    cases hif : dget intf "ifname" with
    | none => simp [Except.map]
    | some ifname =>
      by_cases hign : ifname ∈ ignore
      · simp only [if_pos hign]
        exact ih devs r t h1 h2
      · simp only [if_neg hign]
        cases haddr : dget intf "ip-address" with
        | none => simp [Except.map]
        | some addr =>
          by_cases hip : is_ipv4 addr
          · simp only [if_pos hip]
            cases hnet : ip_network addr with
            | none => simp [Except.map]
            | some net =>
              by_cases hpriv : network_is_private net
              · simp only [if_pos hpriv]
                exact ih devs r t h1 h2
              · simp only [if_neg hpriv]
                have hset : set_interface devs dkey ifname addr =
                    .ok (dinsert devs dkey
                          (dinsert r "interfaces" (Field.table (dinsert t ifname addr)))) := by
                  simp [set_interface, h1, h2]
                rw [hset]
                show interfaces_go ignore dkey rest
                    (dinsert devs dkey (dinsert r "interfaces"
                      (Field.table (dinsert t ifname addr)))) = _
                have hrec := ih
                  (dinsert devs dkey (dinsert r "interfaces" (Field.table (dinsert t ifname addr))))
                  (dinsert r "interfaces" (Field.table (dinsert t ifname addr)))
                  (dinsert t ifname addr)
                  (dget_dinsert_self _ _ _) (dget_dinsert_self _ _ _)
                rw [hrec]
                cases table_go ignore rest (dinsert t ifname addr) with
                | error e => simp [Except.map]
                | ok t2 => simp [Except.map, dinsert_dinsert]
          · simp only [if_neg hip]
            exact ih devs r t h1 h2

/-- The outer loop of `add_interface_info`, running over the keys of the
yet-unprocessed suffix `B` of the device dictionary, enriches each entry of
`B` independently. -/
theorem add_go_spec (fetch : String → List StrDict) (ignore : List String) :
    ∀ (B A : DevDict), ((A ++ B).map Prod.fst).Nodup →
      add_go fetch ignore (B.map Prod.fst) (A ++ B) =
        Except.map (fun B2 => A ++ B2) (mapE (enrich_entry fetch ignore) B) := by
  intro B
  induction B with
  | nil => intro A hnd; simp [add_go, mapE, Except.map]
  | cons p B2 ih =>
    intro A hnd
    obtain ⟨k, r⟩ := p
    have hkA : k ∉ A.map Prod.fst := by
      simp only [List.map_append, List.map_cons, List.nodup_append] at hnd
      intro hmem
      exact hnd.2.2 hmem (by simp)
    simp only [List.map_cons, add_go]
    have hstep : device_step fetch ignore (A ++ (k, r) :: B2) k =
        Except.map (fun t => A ++ (k, dinsert r "interfaces" (Field.table t)) :: B2)
          (device_interfaces ignore (fetch k)) := by
      have hget : dget (A ++ (k, r) :: B2) k = some r := by
        rw [dget_append_right A _ k hkA, dget_cons_self]
      simp only [device_step, hget]
      have hins : dinsert (A ++ (k, r) :: B2) k (dinsert r "interfaces" (Field.table [])) =
          A ++ (k, dinsert r "interfaces" (Field.table [])) :: B2 := by
        rw [dinsert_append_right A _ k _ hkA, dinsert_cons_self]
      rw [hins]
      have hget2 : dget (A ++ (k, dinsert r "interfaces" (Field.table [])) :: B2) k =
          some (dinsert r "interfaces" (Field.table [])) := by
        rw [dget_append_right A _ k hkA, dget_cons_self]
      have hspec := interfaces_go_spec ignore k (fetch k)
        (A ++ (k, dinsert r "interfaces" (Field.table [])) :: B2)
        (dinsert r "interfaces" (Field.table [])) []
        hget2 (dget_dinsert_self _ _ _)
      rw [hspec]
      unfold device_interfaces
      cases table_go ignore (fetch k) [] with
      | error e => simp [Except.map]
      | ok t =>
        simp only [Except.map]
        rw [dinsert_append_right A _ k _ hkA, dinsert_cons_self, dinsert_dinsert]
    rw [hstep]
    cases hdi : device_interfaces ignore (fetch k) with
    | error e =>
      simp only [Except.map, mapE, enrich_entry, hdi]
    | ok t =>
      simp only [Except.map]
      have hnd2 : (((A ++ [(k, dinsert r "interfaces" (Field.table t))]) ++ B2).map Prod.fst).Nodup := by
        have : ((A ++ [(k, dinsert r "interfaces" (Field.table t))]) ++ B2).map Prod.fst =
            (A ++ (k, r) :: B2).map Prod.fst := by
          simp
        rw [this]
        exact hnd
      have hrec := ih (A ++ [(k, dinsert r "interfaces" (Field.table t))]) hnd2
      rw [List.append_assoc] at hrec
      simp only [List.singleton_append] at hrec
      rw [hrec]
      simp only [mapE, enrich_entry, hdi, Except.map]
      cases mapE (enrich_entry fetch ignore) B2 with
      | error e => simp
      | ok ys => simp

/-- `add_interface_info` on a dictionary with distinct keys (always true of
a Python dict) equals the independent enrichment of every entry. -/
theorem add_interface_info_spec (devices : DevDict) (fetch : String → List StrDict)
    (ignore : List String) (hnd : (devices.map Prod.fst).Nodup) :
    add_interface_info devices fetch ignore = mapE (enrich_entry fetch ignore) devices := by
  have h := add_go_spec fetch ignore devices [] (by simpa using hnd)
  simp only [List.nil_append] at h
  rw [add_interface_info, h]
  cases mapE (enrich_entry fetch ignore) devices with
  | error e => simp [Except.map]
  | ok ys => simp [Except.map]

/-! ## Behaviour of the pure per-device table computation -/

/-- Every entry `table_go` adds passed all three filter stages, so the
filter invariant propagates from the initial table to the result. -/
theorem table_go_good (ignore : List String) :
    ∀ (intfs : List StrDict) (tbl tbl2 : StrDict),
      table_go ignore intfs tbl = .ok tbl2 →
      (∀ q ∈ tbl, q.1 ∉ ignore ∧ ∃ net, ip_network q.2 = some net ∧ network_is_private net = false) →
      ∀ q ∈ tbl2, q.1 ∉ ignore ∧ ∃ net, ip_network q.2 = some net ∧ network_is_private net = false := by
  intro intfs
  induction intfs with
  | nil =>
    intro tbl tbl2 h hinv
    simp only [table_go] at h
    cases h
    exact hinv
  | cons intf rest ih =>
    intro tbl tbl2 h hinv
    simp only [table_go] at h
    cases hif : dget intf "ifname" with
    | none => simp [hif] at h
    | some ifname =>
      simp only [hif] at h
      by_cases hign : ifname ∈ ignore
      · rw [if_pos hign] at h
        exact ih tbl tbl2 h hinv
      · rw [if_neg hign] at h
        cases haddr : dget intf "ip-address" with
        | none => simp [haddr] at h
        | some addr =>
          simp only [haddr] at h
          by_cases hip : is_ipv4 addr = true
          · rw [if_pos hip] at h
            cases hnet : ip_network addr with
            | none => simp [hnet] at h
            | some net =>
              simp only [hnet] at h
              by_cases hpriv : network_is_private net = true
              · rw [if_pos hpriv] at h
                exact ih tbl tbl2 h hinv
              · rw [if_neg hpriv] at h
                rw [Bool.not_eq_true] at hpriv
                refine ih _ tbl2 h ?_
                intro q hq
                rcases mem_dinsert tbl ifname addr q hq with hq1 | hq1
                · subst hq1
                  exact ⟨hign, net, hnet, hpriv⟩
                · exact hinv q hq1
          · rw [if_neg hip] at h
            exact ih tbl tbl2 h hinv

/-- When the inner loop completes without raising, every processed
interface record had an `ifname`, and an `ip-address` unless ignored. -/
theorem table_go_ok_fields (ignore : List String) :
    ∀ (intfs : List StrDict) (tbl tbl2 : StrDict),
      table_go ignore intfs tbl = .ok tbl2 →
      ∀ intf ∈ intfs, (dget intf "ifname").isSome ∧
        ∀ n, dget intf "ifname" = some n → n ∉ ignore → (dget intf "ip-address").isSome := by
  intro intfs
  induction intfs with
  | nil => intro tbl tbl2 h intf hmem; simp at hmem
  | cons intf0 rest ih =>
    intro tbl tbl2 h intf hmem
    simp only [table_go] at h
    cases hif : dget intf0 "ifname" with
    | none => simp [hif] at h
    | some ifname =>
      simp only [hif] at h
      simp only [List.mem_cons] at hmem
      by_cases hign : ifname ∈ ignore
      · rw [if_pos hign] at h
        rcases hmem with rfl | hmem
        · refine ⟨by simp [hif], ?_⟩
          intro n hn hnig
          rw [hif] at hn
          cases hn
          exact absurd hign hnig
        · exact ih tbl tbl2 h intf hmem
      · rw [if_neg hign] at h
        cases haddr : dget intf0 "ip-address" with
        | none => simp [haddr] at h
        | some addr =>
          simp only [haddr] at h
          rcases hmem with rfl | hmem
          · exact ⟨by simp [hif], fun n hn hnig => by simp [haddr]⟩
          · by_cases hip : is_ipv4 addr = true
            · rw [if_pos hip] at h
              cases hnet : ip_network addr with
              | none => simp [hnet] at h
              | some net =>
                simp only [hnet] at h
                by_cases hpriv : network_is_private net = true
                · rw [if_pos hpriv] at h
                  exact ih tbl tbl2 h intf hmem
                · rw [if_neg hpriv] at h
                  exact ih _ tbl2 h intf hmem
            · rw [if_neg hip] at h
              exact ih tbl tbl2 h intf hmem

/-- The only exceptions the inner loop can raise are the two `KeyError`s
(the `ValueError` re-parse arm is unreachable behind the `is_ipv4` guard). -/
theorem table_go_error (ignore : List String) :
    ∀ (intfs : List StrDict) (tbl : StrDict) (e : PyErr),
      table_go ignore intfs tbl = .error e →
      e = .keyError "ifname" ∨ e = .keyError "ip-address" := by
  intro intfs
  induction intfs with
  | nil => intro tbl e h; simp [table_go] at h
  | cons intf rest ih =>
    intro tbl e h
    simp only [table_go] at h
    cases hif : dget intf "ifname" with
    | none =>
      simp only [hif] at h
      cases h
      exact Or.inl rfl
    | some ifname =>
      simp only [hif] at h
      by_cases hign : ifname ∈ ignore
      · rw [if_pos hign] at h
        exact ih tbl e h
      · rw [if_neg hign] at h
        cases haddr : dget intf "ip-address" with
        | none =>
          simp only [haddr] at h
          cases h
          exact Or.inr rfl
        | some addr =>
          simp only [haddr] at h
          by_cases hip : is_ipv4 addr = true
          · rw [if_pos hip] at h
            cases hnet : ip_network addr with
            | none =>
              rw [is_ipv4, hnet] at hip
              simp at hip
            | some net =>
              simp only [hnet] at h
              by_cases hpriv : network_is_private net = true
              · rw [if_pos hpriv] at h
                exact ih tbl e h
              · rw [if_neg hpriv] at h
                exact ih _ e h
          · rw [if_neg hip] at h
            exact ih tbl e h

/-- The inner loop cannot raise when every fetched interface record carries
both of the accessed fields, whatever their address values are. -/
theorem table_go_total (ignore : List String) :
    ∀ (intfs : List StrDict),
      (∀ intf ∈ intfs, (dget intf "ifname").isSome ∧ (dget intf "ip-address").isSome) →
      ∀ tbl, ∃ t2, table_go ignore intfs tbl = .ok t2 := by
  intro intfs
  induction intfs with
  | nil => intro _ tbl; exact ⟨tbl, rfl⟩
  | cons intf rest ih =>
    intro hall tbl
    have hhead := hall intf (by simp)
    have hrest : ∀ i ∈ rest, (dget i "ifname").isSome ∧ (dget i "ip-address").isSome :=
      fun i hi => hall i (by simp [hi])
    cases hif : dget intf "ifname" with
    | none => rw [hif] at hhead; simp at hhead
    | some ifname =>
      cases haddr : dget intf "ip-address" with
      | none => rw [haddr] at hhead; simp at hhead
      | some addr =>
        cases hnet : ip_network addr with
        | none =>
          have hip : is_ipv4 addr = false := by rw [is_ipv4, hnet]; rfl
          simp only [table_go, hif, haddr, hip]
          by_cases hign : ifname ∈ ignore
          · rw [if_pos hign]
            exact ih hrest tbl
          · rw [if_neg hign, if_neg (by simp : ¬(false = true))]
            exact ih hrest tbl
        | some net =>
          simp only [table_go, hif, haddr, hnet]
          by_cases hign : ifname ∈ ignore
          · rw [if_pos hign]
            exact ih hrest tbl
          · rw [if_neg hign]
            by_cases hip : is_ipv4 addr = true
            · rw [if_pos hip]
              by_cases hpriv : network_is_private net = true
              · rw [if_pos hpriv]
                exact ih hrest tbl
              · rw [if_neg hpriv]
                exact ih hrest (dinsert tbl ifname addr)
            · rw [if_neg hip]
              exact ih hrest tbl

/-- The inner loop over a concatenation runs the two halves in sequence. -/
theorem table_go_append (ignore : List String) :
    ∀ (l1 l2 : List StrDict) (tbl : StrDict),
      table_go ignore (l1 ++ l2) tbl =
        match table_go ignore l1 tbl with
        | .ok t => table_go ignore l2 t
        | .error e => .error e := by
  intro l1
  induction l1 with
  | nil => intro l2 tbl; simp [table_go]
  | cons intf rest ih =>
    intro l2 tbl
    cases hif : dget intf "ifname" with
    | none => simp [List.cons_append, table_go, hif]
    | some ifname =>
      by_cases hign : ifname ∈ ignore
      · simp only [List.cons_append, table_go, hif, if_pos hign]
        exact ih l2 tbl
      · cases haddr : dget intf "ip-address" with
        | none => simp [List.cons_append, table_go, hif, if_neg hign, haddr]
        | some addr =>
          by_cases hip : is_ipv4 addr = true
          · cases hnet : ip_network addr with
            | none =>
              rw [is_ipv4, hnet] at hip
              simp at hip
            | some net =>
              by_cases hpriv : network_is_private net = true
              · simp only [List.cons_append, table_go, hif, if_neg hign, haddr,
                           if_pos hip, hnet, if_pos hpriv]
                exact ih l2 tbl
              · simp only [List.cons_append, table_go, hif, if_neg hign, haddr,
                           if_pos hip, hnet, if_neg hpriv]
                exact ih l2 (dinsert tbl ifname addr)
          · simp only [List.cons_append, table_go, hif, if_neg hign, haddr, if_neg hip]
            exact ih l2 tbl

/-- A binding `n ↦ a` survives the rest of the inner loop provided every
later surviving record named `n` carries the same address. -/
theorem table_go_preserve (ignore : List String) (n a : String) :
    ∀ (intfs : List StrDict) (tbl : StrDict),
      dget tbl n = some a →
      (∀ intf ∈ intfs, ∀ a2, dget intf "ifname" = some n → dget intf "ip-address" = some a2 →
        ∀ net, ip_network a2 = some net → network_is_private net = false → a2 = a) →
      ∀ t2, table_go ignore intfs tbl = .ok t2 → dget t2 n = some a := by
  intro intfs
  induction intfs with
  | nil =>
    intro tbl htbl _ t2 h
    simp only [table_go] at h
    cases h
    exact htbl
  | cons intf rest ih =>
    intro tbl htbl hcond t2 h
    have hcondrest : ∀ intf2 ∈ rest, ∀ a2, dget intf2 "ifname" = some n →
        dget intf2 "ip-address" = some a2 →
        ∀ net, ip_network a2 = some net → network_is_private net = false → a2 = a :=
      fun intf2 hm => hcond intf2 (by simp [hm])
    simp only [table_go] at h
    cases hif : dget intf "ifname" with
    | none => simp [hif] at h
    | some ifname =>
      simp only [hif] at h
      by_cases hign : ifname ∈ ignore
      · rw [if_pos hign] at h
        exact ih tbl htbl hcondrest t2 h
      · rw [if_neg hign] at h
        cases haddr : dget intf "ip-address" with
        | none => simp [haddr] at h
        | some addr =>
          simp only [haddr] at h
          by_cases hip : is_ipv4 addr = true
          · rw [if_pos hip] at h
            cases hnet : ip_network addr with
            | none => simp [hnet] at h
            | some net =>
              simp only [hnet] at h
              by_cases hpriv : network_is_private net = true
              · rw [if_pos hpriv] at h
                exact ih tbl htbl hcondrest t2 h
              · rw [if_neg hpriv] at h
                rw [Bool.not_eq_true] at hpriv
                by_cases hn : ifname = n
                · subst hn
                  have haa : addr = a :=
                    hcond intf (by simp) addr hif haddr net hnet hpriv
                  subst haa
                  exact ih _ (dget_dinsert_self tbl ifname addr) hcondrest t2 h
                · have hkeep : dget (dinsert tbl ifname addr) n = some a := by
                    rw [dget_dinsert_ne tbl ifname n addr (fun hx => hn hx.symm)]
                    exact htbl
                  exact ih _ hkeep hcondrest t2 h
          · rw [if_neg hip] at h
            exact ih tbl htbl hcondrest t2 h

/-- When no fetched record survives the three filter stages the inner loop
leaves the table unchanged. -/
theorem table_go_no_survivor (ignore : List String) :
    ∀ (intfs : List StrDict) (tbl t2 : StrDict),
      table_go ignore intfs tbl = .ok t2 →
      (∀ intf ∈ intfs, ∀ n2, dget intf "ifname" = some n2 → n2 ∉ ignore →
        ∀ a2, dget intf "ip-address" = some a2 →
        ∀ net, ip_network a2 = some net → network_is_private net = true) →
      t2 = tbl := by
  intro intfs
  induction intfs with
  | nil =>
    intro tbl t2 h _
    simp only [table_go] at h
    cases h
    rfl
  | cons intf rest ih =>
    intro tbl t2 h hcond
    have hcondrest : ∀ intf2 ∈ rest, ∀ n2, dget intf2 "ifname" = some n2 → n2 ∉ ignore →
        ∀ a2, dget intf2 "ip-address" = some a2 →
        ∀ net, ip_network a2 = some net → network_is_private net = true :=
      fun intf2 hm => hcond intf2 (by simp [hm])
    simp only [table_go] at h
    cases hif : dget intf "ifname" with
    | none => simp [hif] at h
    | some ifname =>
      simp only [hif] at h
      by_cases hign : ifname ∈ ignore
      · rw [if_pos hign] at h
        exact ih tbl t2 h hcondrest
      · rw [if_neg hign] at h
        cases haddr : dget intf "ip-address" with
        | none => simp [haddr] at h
        | some addr =>
          simp only [haddr] at h
          by_cases hip : is_ipv4 addr = true
          · rw [if_pos hip] at h
            cases hnet : ip_network addr with
            | none => simp [hnet] at h
            | some net =>
              simp only [hnet] at h
              have hp : network_is_private net = true :=
                hcond intf (by simp) ifname hif hign addr haddr net hnet
              rw [if_pos hp] at h
              exact ih tbl t2 h hcondrest
          · rw [if_neg hip] at h
            exact ih tbl t2 h hcondrest

/-! ## Connecting lemmas for the enricher claims -/

theorem except_map_error {α β : Type} (f : α → β) (x : Except PyErr α) (e : PyErr)
    (h : Except.map f x = .error e) : x = .error e := by
  cases x with
  | error e2 => simpa [Except.map] using h
  | ok y => simp [Except.map] at h

theorem enrich_entry_ok (fetch : String → List StrDict) (ignore : List String)
    (p : String × DevRec) (y : String × DevRec)
    (h : enrich_entry fetch ignore p = .ok y) :
    ∃ t, device_interfaces ignore (fetch p.1) = .ok t ∧
      y = (p.1, dinsert p.2 "interfaces" (Field.table t)) := by
  unfold enrich_entry at h
  cases hdi : device_interfaces ignore (fetch p.1) with
  | error e => rw [hdi] at h; simp [Except.map] at h
  | ok t =>
    rw [hdi] at h
    simp only [Except.map, Except.ok.injEq] at h
    exact ⟨t, rfl, h.symm⟩

theorem enrich_keys (fetch : String → List StrDict) (ignore : List String) :
    ∀ (devices out : DevDict), mapE (enrich_entry fetch ignore) devices = .ok out →
      out.map Prod.fst = devices.map Prod.fst := by
  intro devices
  induction devices with
  | nil => intro out h; simp only [mapE] at h; cases h; rfl
  | cons p rest ih =>
    intro out h
    simp only [mapE] at h
    cases hp : enrich_entry fetch ignore p with
    | error e => rw [hp] at h; exact absurd h (by simp)
    | ok y =>
      rw [hp] at h
      cases hrest : mapE (enrich_entry fetch ignore) rest with
      | error e => rw [hrest] at h; exact absurd h (by simp)
      | ok ys =>
        rw [hrest] at h
        cases h
        obtain ⟨t, _, hy⟩ := enrich_entry_ok fetch ignore p y hp
        subst hy
        simp [ih ys hrest]

theorem mapE_total {α β : Type} (f : α → Except PyErr β) :
    ∀ (l : List α), (∀ x ∈ l, ∃ y, f x = .ok y) → ∃ l2, mapE f l = .ok l2 := by
  intro l
  induction l with
  | nil => intro _; exact ⟨[], rfl⟩
  | cons x xs ih =>
    intro h
    obtain ⟨y, hy⟩ := h x (by simp)
    obtain ⟨ys, hys⟩ := ih (fun z hz => h z (by simp [hz]))
    exact ⟨y :: ys, by simp [mapE, hy, hys]⟩

/-! ## Claim theorems for the interface enricher -/

/-- C1.  Every binding in any device's final `interfaces` mapping has a
name outside the ignore list and an address string that parses as an IPv4
network/host (non-strict) whose parsed network is not private. -/
theorem claim_C1_filter_invariant (devices : DevDict) (fetch : String → List StrDict)
    (ignore : List String) (out : DevDict)
    (hnd : (devices.map Prod.fst).Nodup)
    (hok : add_interface_info devices fetch ignore = Except.ok out)
    (dkey : String) (r : DevRec) (hmem : (dkey, r) ∈ out)
    (m : StrDict) (hm : dget r "interfaces" = some (Field.table m))
    (n a : String) (hna : (n, a) ∈ m) :
    n ∉ ignore ∧ is_ipv4 a = true ∧ addr_private a = false := by
  rw [add_interface_info_spec devices fetch ignore hnd] at hok
  obtain ⟨p, hp, hpe⟩ := mapE_ok_mem _ devices out hok (dkey, r) hmem
  obtain ⟨t, hdi, hy⟩ := enrich_entry_ok fetch ignore p _ hpe
  have hr : r = dinsert p.2 "interfaces" (Field.table t) := congrArg Prod.snd hy
  rw [hr, dget_dinsert_self] at hm
  cases hm
  have hgood := table_go_good ignore (fetch p.1) [] m hdi (by intro q hq; simp at hq)
    (n, a) hna
  obtain ⟨hnig, net, hnet, hpriv⟩ := hgood
  refine ⟨hnig, ?_, ?_⟩
  · rw [is_ipv4, hnet]; rfl
  · rw [addr_private, hnet]; exact hpriv

/-- C2 (amended).  A fetched interface record that passes all three filter
stages is recorded under its name in the device's `interfaces` mapping with
its address — provided no later surviving record of the same device reuses
the name with a different address (the later record would overwrite it). -/
theorem claim_C2_public_recorded (devices : DevDict) (fetch : String → List StrDict)
    (ignore : List String) (out : DevDict)
    (hnd : (devices.map Prod.fst).Nodup)
    (hok : add_interface_info devices fetch ignore = Except.ok out)
    (dkey : String) (r : DevRec) (hmem : (dkey, r) ∈ devices)
    (l1 l2 : List StrDict) (intf : StrDict)
    (hfetch : fetch dkey = l1 ++ intf :: l2)
    (n a : String)
    (hn : dget intf "ifname" = some n) (hnig : n ∉ ignore)
    (ha : dget intf "ip-address" = some a)
    (net : IPv4Network) (hnet : ip_network a = some net)
    (hpub : network_is_private net = false)
    (hlater : ∀ intf2 ∈ l2, ∀ a2, dget intf2 "ifname" = some n →
      dget intf2 "ip-address" = some a2 →
      ∀ net2, ip_network a2 = some net2 → network_is_private net2 = false → a2 = a) :
    out_interface out dkey n = some a := by
  rw [add_interface_info_spec devices fetch ignore hnd] at hok
  obtain ⟨⟨i, hi⟩, hget⟩ := List.mem_iff_get.mp hmem
  have hlen : out.length = devices.length := mapE_ok_length _ devices out hok
  have hi2 : i < out.length := by rw [hlen]; exact hi
  have hpe := mapE_ok_get _ devices out hok i hi hi2
  rw [hget] at hpe
  obtain ⟨t, hdi, hy⟩ := enrich_entry_ok fetch ignore (dkey, r) _ hpe
  -- the surviving record reaches the table and stays there
  have hip : is_ipv4 a = true := by rw [is_ipv4, hnet]; rfl
  have hdgt : dget t n = some a := by
    rw [device_interfaces, hfetch, table_go_append] at hdi
    cases h1 : table_go ignore l1 [] with
    | error e => rw [h1] at hdi; exact absurd hdi (by simp)
    | ok t1 =>
      rw [h1] at hdi
      simp only [table_go, hn, if_neg hnig, ha, if_pos hip, hnet,
        if_neg (by simp [hpub] : ¬(network_is_private net = true))] at hdi
      exact table_go_preserve ignore n a l2 (dinsert t1 n a)
        (dget_dinsert_self t1 n a) hlater t hdi
  -- locate the enriched record in the output dictionary
  have hkeys : out.map Prod.fst = devices.map Prod.fst := enrich_keys fetch ignore devices out hok
  have hkndp : (out.map Prod.fst).Nodup := by rw [hkeys]; exact hnd
  have hout := dget_get out hkndp i hi2
  rw [hy] at hout
  have hout2 : dget out dkey = some (dinsert r "interfaces" (Field.table t)) := hout
  simp only [out_interface, hout2, interfaces_table, dget_dinsert_self]
  exact hdgt

/-- C9.  `add_interface_info` keeps every device (same keys in the same
order), binds its `interfaces` key to a table, leaves every other field
unchanged, and the table is empty when zero interfaces were fetched or none
survived the filters. -/
theorem claim_C9_frame (devices : DevDict) (fetch : String → List StrDict)
    (ignore : List String) (out : DevDict)
    (hnd : (devices.map Prod.fst).Nodup)
    (hok : add_interface_info devices fetch ignore = Except.ok out) :
    out.length = devices.length ∧
    ∀ (i : Nat) (hi : i < out.length) (hi2 : i < devices.length),
      (out.get ⟨i, hi⟩).1 = (devices.get ⟨i, hi2⟩).1 ∧
      ∃ t, dget (out.get ⟨i, hi⟩).2 "interfaces" = some (Field.table t) ∧
        (∀ k, k ≠ "interfaces" → dget (out.get ⟨i, hi⟩).2 k = dget (devices.get ⟨i, hi2⟩).2 k) ∧
        (fetch (devices.get ⟨i, hi2⟩).1 = [] → t = []) ∧
        ((∀ intf ∈ fetch (devices.get ⟨i, hi2⟩).1, ∀ n2, dget intf "ifname" = some n2 →
            n2 ∉ ignore → ∀ a2, dget intf "ip-address" = some a2 →
            ∀ net, ip_network a2 = some net → network_is_private net = true) → t = []) := by
  rw [add_interface_info_spec devices fetch ignore hnd] at hok
  refine ⟨mapE_ok_length _ devices out hok, ?_⟩
  intro i hi hi2
  have hpe := mapE_ok_get _ devices out hok i hi2 hi
  obtain ⟨t, hdi, hy⟩ := enrich_entry_ok fetch ignore _ _ hpe
  have hfst : (out.get ⟨i, hi⟩).1 = (devices.get ⟨i, hi2⟩).1 := by rw [hy]
  have hsnd : (out.get ⟨i, hi⟩).2 =
      dinsert (devices.get ⟨i, hi2⟩).2 "interfaces" (Field.table t) := by rw [hy]
  refine ⟨hfst, t, ?_, ?_, ?_, ?_⟩
  · rw [hsnd, dget_dinsert_self]
  · intro k hk
    rw [hsnd, dget_dinsert_ne _ _ _ _ hk]
  · intro hempty
    rw [device_interfaces, hempty] at hdi
    simp only [table_go] at hdi
    cases hdi
    rfl
  · intro hnos
    exact table_go_no_survivor ignore (fetch (devices.get ⟨i, hi2⟩).1) [] t hdi hnos

/-- C10.  A fetched interface record lacking `ifname`, or unignored and
lacking `ip-address`, makes `add_interface_info` raise the corresponding
`KeyError` (the run aborts instead of skipping the record). -/
theorem claim_C10_missing_field_raises (devices : DevDict) (fetch : String → List StrDict)
    (ignore : List String)
    (hnd : (devices.map Prod.fst).Nodup)
    (dkey : String) (r : DevRec) (intf : StrDict)
    (hmem : (dkey, r) ∈ devices) (hintf : intf ∈ fetch dkey)
    (hbad : dget intf "ifname" = none ∨
      ∃ n, dget intf "ifname" = some n ∧ n ∉ ignore ∧ dget intf "ip-address" = none) :
    add_interface_info devices fetch ignore = .error (PyErr.keyError "ifname") ∨
    add_interface_info devices fetch ignore = .error (PyErr.keyError "ip-address") := by
  rw [add_interface_info_spec devices fetch ignore hnd]
  cases hres : mapE (enrich_entry fetch ignore) devices with
  | ok out =>
    exfalso
    obtain ⟨y, _, hpe⟩ := mapE_ok_mem_fwd _ devices out hres (dkey, r) hmem
    obtain ⟨t, hdi, _⟩ := enrich_entry_ok fetch ignore _ _ hpe
    have hfields := table_go_ok_fields ignore (fetch dkey) [] t hdi intf hintf
    rcases hbad with hb | ⟨n, hn, hnig, hnone⟩
    · rw [hb] at hfields
      simp at hfields
    · have := hfields.2 n hn hnig
      rw [hnone] at this
      simp at this
  | error e =>
    obtain ⟨p, _, hpe⟩ := mapE_error _ devices e hres
    have hdie : device_interfaces ignore (fetch p.1) = .error e :=
      except_map_error _ _ e hpe
    rcases table_go_error ignore (fetch p.1) [] e hdie with h | h
    · left; rw [h]
    · right; rw [h]

/-- C8.  A string `ip-network` parsing rejects makes `is_ipv4` return
`False` (e.g. `"not-an-ip"` and `""`); such an interface record is skipped
by the filter loop without effect, and `add_interface_info` completes
without raising on any fetched data whose records carry both fields,
whatever their address strings hold. -/
theorem claim_C8_malformed_address_safe :
    (∀ s, ip_network s = none → is_ipv4 s = false) ∧
    is_ipv4 "not-an-ip" = false ∧
    is_ipv4 "" = false ∧
    (∀ (ignore : List String) (tbl : StrDict) (intf : StrDict) (n a : String)
        (rest : List StrDict),
      dget intf "ifname" = some n → n ∉ ignore →
      dget intf "ip-address" = some a → is_ipv4 a = false →
      table_go ignore (intf :: rest) tbl = table_go ignore rest tbl) ∧
    (∀ (devices : DevDict) (fetch : String → List StrDict) (ignore : List String),
      (devices.map Prod.fst).Nodup →
      (∀ p ∈ devices, ∀ intf ∈ fetch p.1,
        (dget intf "ifname").isSome ∧ (dget intf "ip-address").isSome) →
      ∃ out, add_interface_info devices fetch ignore = .ok out) := by
  refine ⟨?_, rfl, rfl, ?_, ?_⟩
  · intro s h
    rw [is_ipv4, h]
    rfl
  · intro ignore tbl intf n a rest hn hnig ha hip
    simp only [table_go, hn, if_neg hnig, ha, hip, if_neg (by simp : ¬(false = true))]
  · intro devices fetch ignore hnd hall
    rw [add_interface_info_spec devices fetch ignore hnd]
    refine mapE_total _ devices ?_
    intro p hp
    obtain ⟨t, ht⟩ := table_go_total ignore (fetch p.1) (hall p hp) []
    exact ⟨(p.1, dinsert p.2 "interfaces" (Field.table t)), by
      rw [enrich_entry, device_interfaces, ht]; rfl⟩

/-! ## The device formatter (C6) -/

theorem mkRecord_fold (device : StrDict) :
    ∀ (keys : List String) (dd : DevRec) (k : String),
      dget (keys.foldl (fun dd key =>
          dinsert dd key (Field.str ((dget device key).getD "N/A"))) dd) k =
        if k ∈ keys then some (Field.str ((dget device k).getD "N/A")) else dget dd k := by
  intro keys
  induction keys with
  | nil => intro dd k; simp
  | cons key rest ih =>
    intro dd k
    simp only [List.foldl_cons]
    rw [ih]
    by_cases hk : k ∈ rest
    · simp [hk]
    · by_cases hkey : k = key
      · subst hkey
        simp [hk, dget_dinsert_self]
      · simp [hk, hkey, dget_dinsert_ne dd key k _ hkey]

/-- The formatted record holds exactly the requested keys, with the raw
value or the `"N/A"` sentinel. -/
theorem mkRecord_dget (keys : List String) (device : StrDict) (k : String) :
    dget (mkRecord keys device) k =
      if k ∈ keys then some (Field.str ((dget device k).getD "N/A")) else none := by
  rw [mkRecord, mkRecord_fold]
  by_cases hk : k ∈ keys <;> simp [hk, dget]

theorem format_go_spec (keys : List String) :
    ∀ (raw : List StrDict) (acc : DevDict),
      (∀ d ∈ raw, (dget d "system-ip").isSome) →
      ∃ out, format_go keys raw acc = .ok out ∧
        ∀ s, dget out s =
          match lastMatch raw s with
          | some d => some (mkRecord keys d)
          | none => dget acc s := by
  intro raw
  induction raw with
  | nil =>
    intro acc _
    exact ⟨acc, rfl, fun s => by simp [lastMatch]⟩
  | cons d rest ih =>
    intro acc hall
    have hd := hall d (by simp)
    cases hsip : dget d "system-ip" with
    | none => rw [hsip] at hd; simp at hd
    | some sip =>
      obtain ⟨out, hout, hspec⟩ := ih (dinsert acc sip (mkRecord keys d))
        (fun d2 h2 => hall d2 (by simp [h2]))
      refine ⟨out, ?_, ?_⟩
      · simp only [format_go, hsip]
        exact hout
      · intro s
        rw [hspec s]
        simp only [lastMatch]
        cases hlm : lastMatch rest s with
        | some d2 => simp only [hlm]
        | none =>
          simp only [hlm]
          by_cases hs : dget d "system-ip" = some s
          · rw [if_pos hs]
            rw [hsip] at hs
            cases hs
            rw [dget_dinsert_self]
          · rw [if_neg hs]
            have hne : s ≠ sip := by
              intro heq
              rw [heq] at hs
              exact hs hsip
            rw [dget_dinsert_ne acc sip s _ hne]

/-- C6.  `format_device_data` keys the output by `system-ip` (the later of
two raw devices sharing one wins), and each record carries exactly the
requested keys with `"N/A"` substituted for absent fields. -/
theorem claim_C6_format (raw_devices : List StrDict) (keys : List String)
    (h : ∀ d ∈ raw_devices, (dget d "system-ip").isSome) :
    ∃ out, format_device_data raw_devices keys = .ok out ∧
      (∀ s, dget out s = Option.map (mkRecord keys) (lastMatch raw_devices s)) ∧
      (∀ d k, dget (mkRecord keys d) k =
        if k ∈ keys then some (Field.str ((dget d k).getD "N/A")) else none) := by
  obtain ⟨out, hout, hspec⟩ := format_go_spec keys raw_devices [] h
  refine ⟨out, hout, ?_, fun d k => mkRecord_dget keys d k⟩
  intro s
  rw [hspec s]
  cases lastMatch raw_devices s with
  | some d => rfl
  | none => rfl

/-! ## The report writers (C5) -/

theorem excel_go_spec (keys : List String) :
    ∀ (devices : DevDict) (rows : List (List Field)),
      (∀ p ∈ devices, ∃ m, dget p.2 "interfaces" = some (Field.table m)) →
      excel_go keys devices rows = .ok (rows ++ devices.map (fun p => excelRowOf keys p.2)) := by
  intro devices
  induction devices with
  | nil => intro rows _; simp [excel_go]
  | cons p rest ih =>
    intro rows hall
    obtain ⟨m, hm⟩ := hall p (by simp)
    have hrest : ∀ q ∈ rest, ∃ m2, dget q.2 "interfaces" = some (Field.table m2) :=
      fun q hq => hall q (by simp [hq])
    have hstep : excel_go keys (p :: rest) rows =
        excel_go keys rest (rows ++ [excelRowOf keys p.2]) := by
      simp only [excel_go, excelRowOf, hm]
      cases m with
      | nil => simp
      | cons q ms => simp
    rw [hstep, ih (rows ++ [excelRowOf keys p.2]) hrest]
    simp

theorem html_go_spec (keys : List String) :
    ∀ (devices : DevDict) (rows : List String),
      (∀ p ∈ devices, ∃ m, dget p.2 "interfaces" = some (Field.table m)) →
      html_go keys devices rows =
        .ok (rows ++ (devices.filter (fun p => truthy_interfaces p.2)).map
          (fun p => htmlRowOf keys p.2)) := by
  intro devices
  induction devices with
  | nil => intro rows _; simp [html_go]
  | cons p rest ih =>
    intro rows hall
    obtain ⟨m, hm⟩ := hall p (by simp)
    have hrest : ∀ q ∈ rest, ∃ m2, dget q.2 "interfaces" = some (Field.table m2) :=
      fun q hq => hall q (by simp [hq])
    have htr : truthy_interfaces p.2 = !m.isEmpty := by
      simp only [truthy_interfaces, hm]
    cases m with
    | nil =>
      have hstep : html_go keys (p :: rest) rows = html_go keys rest rows := by
        simp only [html_go, hm]
        simp
      rw [hstep, ih rows hrest]
      simp only [List.filter_cons, htr]
      simp
    | cons q ms =>
      have hstep : html_go keys (p :: rest) rows =
          html_go keys rest (rows ++ [htmlRowOf keys p.2]) := by
        simp only [html_go, hm]
        simp
      rw [hstep, ih (rows ++ [htmlRowOf keys p.2]) hrest]
      simp only [List.filter_cons, htr]
      simp

/-- C5.  After enrichment (every record's `interfaces` is a table), the
spreadsheet gets one data row per device — a device with an empty table
gets only the key cells, no interface cells — while the HTML report emits
rows only for devices whose `interfaces` table is nonempty. -/
theorem claim_C5_export_asymmetry (devices : DevDict) (keys : List String)
    (h : devices.all (fun p =>
        match dget p.2 "interfaces" with
        | some (.table _) => true
        | _ => false) = true) :
    export_to_excel_rows devices keys = .ok (devices.map (fun p => excelRowOf keys p.2)) ∧
    export_to_html_rows devices keys =
      .ok ((devices.filter (fun p => truthy_interfaces p.2)).map (fun p => htmlRowOf keys p.2)) ∧
    (∀ data : DevRec, dget data "interfaces" = some (Field.table []) →
      excelRowOf keys data = keys.map (fun k2 => (dget data k2).getD (Field.str "N/A")) ∧
      truthy_interfaces data = false) ∧
    (∀ (data : DevRec) (m : StrDict), dget data "interfaces" = some (Field.table m) →
      m ≠ [] → truthy_interfaces data = true) := by
  have h2 : ∀ p ∈ devices, ∃ m, dget p.2 "interfaces" = some (Field.table m) := by
    intro p hp
    have hb := List.all_eq_true.mp h p hp
    cases hdg : dget p.2 "interfaces" with
    | none => simp [hdg] at hb
    | some f =>
      cases f with
      | str s => simp [hdg] at hb
      | table m => exact ⟨m, rfl⟩
  refine ⟨?_, ?_, ?_, ?_⟩
  · rw [export_to_excel_rows, excel_go_spec keys devices [] h2]
    simp
  · rw [export_to_html_rows, html_go_spec keys devices [] h2]
    simp
  · intro data hdg
    constructor
    · simp [excelRowOf, hdg]
    · simp [truthy_interfaces, hdg]
  · intro data m hdg hne
    simp only [truthy_interfaces, hdg]
    cases m with
    | nil => exact absurd rfl hne
    | cons q ms => rfl

/-! ## The HTTP fetcher (C4) -/

/-- C4 (amended).  `fetch_raw_json` returns `[]` without propagating on a
transport error, on a 4xx/5xx status (the statuses `raise_for_status`
flags), on a malformed JSON body, and on a JSON object without a `data`
field. -/
theorem claim_C4_fetch_errors (status : Nat) :
    (fetch_raw_json .transportError = .ok (.jarr [])) ∧
    (∀ body : Option JsonVal, 400 ≤ status → status < 600 →
      fetch_raw_json (.response status body) = .ok (.jarr [])) ∧
    (¬(400 ≤ status ∧ status < 600) →
      fetch_raw_json (.response status none) = .ok (.jarr [])) ∧
    (∀ fields : List (String × JsonVal), ¬(400 ≤ status ∧ status < 600) →
      dget fields "data" = none →
      fetch_raw_json (.response status (some (.jobj fields))) = .ok (.jarr [])) := by
  refine ⟨rfl, ?_, ?_, ?_⟩
  · intro body h1 h2
    simp [fetch_raw_json, h1, h2]
  · intro h
    simp [fetch_raw_json, h]
  · intro fields h hd
    simp [fetch_raw_json, h, hd]

/-- C4 counterexample.  A delivered 304 response (non-2xx) is not flagged
by `raise_for_status`, so its `data` payload is returned instead of the
empty list the claim promises. -/
theorem claim_C4_counterexample :
    fetch_raw_json (.response 304 (some (.jobj [("data", .jarr [.jnum 1])]))) =
      .ok (.jarr [.jnum 1]) ∧
    ¬(200 ≤ 304 ∧ 304 < 300) ∧
    (Except.ok (JsonVal.jarr [JsonVal.jnum 1]) ≠
      (Except.ok (JsonVal.jarr []) : Except PyErr JsonVal)) := by
  refine ⟨rfl, by decide, ?_⟩
  intro hcontra
  simp at hcontra

/-! ## Base64 round trip and the credential store (C7, C3) -/

theorem b64bytes_length : b64bytes.length = 64 := by decide

theorem b64index_b64byte : ∀ i, i < 64 → b64index (b64byte i) = some i := by decide

theorem b64byte_ne_61 : ∀ i, i < 64 → b64byte i ≠ 61 := by decide

theorem b64byte_lt (i : Nat) : b64byte i < 128 := by
  by_cases h : i < 64
  · exact (by decide : ∀ j, j < 64 → b64byte j < 128) i h
  · rw [b64byte, List.getD_eq_default]
    · decide
    · rw [b64bytes_length]; omega

theorem b64byte_not_space (i : Nat) : pyIsSpace (byteChar (b64byte i)) = false := by
  by_cases h : i < 64
  · exact (by decide : ∀ j, j < 64 → pyIsSpace (byteChar (b64byte j)) = false) i h
  · rw [b64byte, List.getD_eq_default]
    · decide
    · rw [b64bytes_length]; omega

/-- Every byte of a base64 encoding is printable ASCII: below 128 and not
whitespace. -/
theorem b64e_mem : ∀ (bs : List Nat) (x : Nat), x ∈ b64e bs →
    x < 128 ∧ pyIsSpace (byteChar x) = false
  | [], x, hx => by simp [b64e] at hx
  | [a], x, hx => by
    simp only [b64e, List.mem_cons, List.not_mem_nil, or_false] at hx
    rcases hx with rfl | rfl | rfl | rfl
    · exact ⟨b64byte_lt _, b64byte_not_space _⟩
    · exact ⟨b64byte_lt _, b64byte_not_space _⟩
    · exact ⟨by decide, by decide⟩
    · exact ⟨by decide, by decide⟩
  | [a, b], x, hx => by
    simp only [b64e, List.mem_cons, List.not_mem_nil, or_false] at hx
    rcases hx with rfl | rfl | rfl | rfl
    · exact ⟨b64byte_lt _, b64byte_not_space _⟩
    · exact ⟨b64byte_lt _, b64byte_not_space _⟩
    · exact ⟨b64byte_lt _, b64byte_not_space _⟩
    · exact ⟨by decide, by decide⟩
  | a :: b :: c :: rest, x, hx => by
    simp only [b64e, List.mem_cons] at hx
    rcases hx with rfl | rfl | rfl | rfl | hx
    · exact ⟨b64byte_lt _, b64byte_not_space _⟩
    · exact ⟨b64byte_lt _, b64byte_not_space _⟩
    · exact ⟨b64byte_lt _, b64byte_not_space _⟩
    · exact ⟨b64byte_lt _, b64byte_not_space _⟩
    · exact b64e_mem rest x hx

/-- C7's engine: URL-safe base64 decoding inverts encoding on byte strings. -/
theorem b64_roundtrip : ∀ (bs : List Nat), (∀ b ∈ bs, b < 256) → b64d (b64e bs) = some bs
  | [], _ => rfl
  | [a], h => by
    have ha : a < 256 := h a (by simp)
    have h1 := b64index_b64byte (a / 4) (by omega)
    have h2 := b64index_b64byte (a % 4 * 16) (by omega)
    simp [b64e, b64d, h1, h2]
    omega
  | [a, b], h => by
    have ha : a < 256 := h a (by simp)
    have hb : b < 256 := h b (by simp)
    have h1 := b64index_b64byte (a / 4) (by omega)
    have h2 := b64index_b64byte (a % 4 * 16 + b / 16) (by omega)
    have h3 := b64index_b64byte (b % 16 * 4) (by omega)
    have hne3 := b64byte_ne_61 (b % 16 * 4) (by omega)
    simp [b64e, b64d, h1, h2, h3, hne3]
    omega
  | a :: b :: c :: rest, h => by
    have ha : a < 256 := h a (by simp)
    have hb : b < 256 := h b (by simp)
    have hc : c < 256 := h c (by simp)
    have hr : ∀ x ∈ rest, x < 256 := fun x hx => h x (by simp [hx])
    have hIH := b64_roundtrip rest hr
    have h1 := b64index_b64byte (a / 4) (by omega)
    have h2 := b64index_b64byte (a % 4 * 16 + b / 16) (by omega)
    have h3 := b64index_b64byte (b % 16 * 4 + c / 64) (by omega)
    have h4 := b64index_b64byte (c % 64) (by omega)
    have hne3 := b64byte_ne_61 (b % 16 * 4 + c / 64) (by omega)
    have hne4 := b64byte_ne_61 (c % 64) (by omega)
    simp [b64e, b64d, h1, h2, h3, h4, hne3, hne4, hIH]
    omega

/-- C7.  `decode_pass` inverts `encode_pass`: with the zlib pair satisfying
its documented inverse contract at the given input, the obscuration
round-trips every byte string. -/
theorem claim_C7_roundtrip (compress : List Nat → List Nat)
    (decompress : List Nat → Option (List Nat)) (x : List Nat)
    (hbytes : ∀ b ∈ compress x, b < 256)
    (hinv : decompress (compress x) = some x) :
    decode_pass decompress (encode_pass compress x) = .ok x := by
  simp only [encode_pass, decode_pass, b64_roundtrip (compress x) hbytes, hinv]

/-! ### Text lemmas for `get_creds` on a well-formed credential file -/

theorem dropWhile_head_false (p : Char → Bool) (l : List Char)
    (h : ∀ c ∈ l, p c = false) : l.dropWhile p = l := by
  cases l with
  | nil => rfl
  | cons c l2 => simp [List.dropWhile_cons, h c (by simp)]

theorem pyStrip_line (l : List Char) (h : ∀ c ∈ l, pyIsSpace c = false) :
    pyStrip (String.mk (l ++ ['\n'])) = String.mk l := by
  cases l with
  | nil => decide
  | cons c l2 =>
    have hc : pyIsSpace c = false := h c (by simp)
    show String.mk ((((c :: l2 ++ ['\n']).dropWhile pyIsSpace).reverse.dropWhile
      pyIsSpace).reverse) = String.mk (c :: l2)
    rw [show (c :: l2 ++ ['\n']).dropWhile pyIsSpace = c :: l2 ++ ['\n'] from by
      simp [List.dropWhile_cons, hc]]
    rw [show (c :: l2 ++ ['\n']).reverse = '\n' :: (c :: l2).reverse from by
      simp]
    rw [show ('\n' :: (c :: l2).reverse).dropWhile pyIsSpace = (c :: l2).reverse from by
      rw [List.dropWhile_cons]
      simp only [show pyIsSpace '\n' = true from rfl, if_pos rfl]
      exact dropWhile_head_false pyIsSpace _ (fun d hd => h d (List.mem_reverse.mp hd))]
    simp

theorem readlinesAux_line : ∀ (l rest acc : List Char),
    (∀ c ∈ l, c ≠ '\n') →
    readlinesAux (l ++ '\n' :: rest) acc =
      String.mk (acc.reverse ++ l ++ ['\n']) :: readlinesAux rest [] := by
  intro l
  induction l with
  | nil =>
    intro rest acc _
    simp [readlinesAux]
  | cons c l2 ih =>
    intro rest acc hnl
    have hc : c ≠ '\n' := hnl c (by simp)
    simp only [List.cons_append, readlinesAux, if_neg hc, List.append_eq]
    rw [ih rest (c :: acc) (fun d hd => hnl d (by simp [hd]))]
    simp

theorem byteChar_toNat (b : Nat) (h : b < 128) : (byteChar b).toNat = b := by
  have hv : b.isValidChar := Or.inl (by omega)
  rw [byteChar, Char.ofNat, dif_pos hv]
  rfl

theorem ascii_encode_bytes (bs : List Nat) (h : ∀ b ∈ bs, b < 128) :
    ascii_encode (String.mk (bs.map byteChar)) = .ok bs := by
  have hall : ((String.mk (bs.map byteChar)).toList.all (fun c => c.toNat < 128)) = true := by
    rw [List.all_eq_true]
    intro c hc
    obtain ⟨b, hb, rfl⟩ := List.mem_map.mp hc
    simpa [byteChar_toNat b (h b hb)] using h b hb
  rw [ascii_encode, if_pos hall]
  rw [show (String.mk (bs.map byteChar)).toList = bs.map byteChar from rfl, List.map_map]
  congr 1
  rw [show Char.toNat ∘ byteChar = fun b => (byteChar b).toNat from rfl]
  conv_rhs => rw [show bs = bs.map id from by simp]
  exact List.map_congr_left (fun b hb => byteChar_toNat b (h b hb))

theorem ascii_only_decode_ok (bs : List Nat) (h : ∀ b ∈ bs, b < 128) :
    ascii_only_decode bs = .ok (String.mk (bs.map byteChar)) := by
  rw [ascii_only_decode, if_pos]
  rw [List.all_eq_true]
  intro b hb
  simpa using h b hb

/-- Decoding one line of a well-formed credential file. -/
theorem decode_line_ok (decompress : List Nat → Option (List Nat)) (zb ub : List Nat)
    (hzb : ∀ x ∈ zb, x < 256)
    (hdec : decompress zb = some ub)
    (hub : ∀ b ∈ ub, b < 128) :
    decode_line decompress (String.mk ((b64e zb).map byteChar ++ ['\n'])) =
      .ok (String.mk (ub.map byteChar)) := by
  have hstrip := pyStrip_line ((b64e zb).map byteChar) (by
    intro c hc
    obtain ⟨x, hx, rfl⟩ := List.mem_map.mp hc
    exact (b64e_mem zb x hx).2)
  have henc := ascii_encode_bytes (b64e zb) (fun x hx => (b64e_mem zb x hx).1)
  simp only [decode_line, hstrip, henc, decode_pass, b64_roundtrip zb hzb, hdec,
    ascii_only_decode_ok ub hub]

/-- C3 counterexample.  An empty (zero-line) credential file is malformed,
and `get_creds` raises `IndexError` instead of returning `("", "")` — only
`IOError` is caught. -/
theorem claim_C3_counterexample :
    get_creds (fun _ => none) (.content "") = .error PyErr.indexError ∧
    (Except.error PyErr.indexError ≠
      (Except.ok ("", "") : Except PyErr (String × String))) := by
  refine ⟨rfl, ?_⟩
  intro h
  simp at h

/-- C3 (amended).  `get_creds` returns `("", "")` exactly on a read
failure (`IOError`); malformed content raises instead — `IndexError` for
fewer than two lines, `binascii.Error` for a line that is not valid base64,
`zlib.error` for data that does not decompress — and on a well-formed
two-line file it returns the decoded `(username, password)` pair. -/
theorem claim_C3_creds_amended :
    (∀ decompress, get_creds decompress .ioError = .ok ("", "")) ∧
    (∀ decompress, get_creds decompress (.content "") = .error .indexError) ∧
    (∀ decompress, get_creds decompress (.content "x\nx\n") = .error .binasciiError) ∧
    (get_creds (fun _ => none) (.content "AAAA\nAAAA\n") = .error .zlibError) ∧
    (∀ (compress : List Nat → List Nat) (decompress : List Nat → Option (List Nat))
        (ub pb : List Nat),
      (∀ x ∈ compress ub, x < 256) → (∀ x ∈ compress pb, x < 256) →
      decompress (compress ub) = some ub → decompress (compress pb) = some pb →
      (∀ b ∈ ub, b < 128) → (∀ b ∈ pb, b < 128) →
      get_creds decompress (.content (String.mk
        ((encode_pass compress ub).map byteChar ++
          '\n' :: ((encode_pass compress pb).map byteChar ++ ['\n'])))) =
        .ok (String.mk (ub.map byteChar), String.mk (pb.map byteChar))) := by
  refine ⟨fun _ => rfl, fun _ => rfl, fun _ => rfl, rfl, ?_⟩
  intro compress decompress ub pb h1 h2 hd1 hd2 hu hp
  have hn1 : ∀ c ∈ (b64e (compress ub)).map byteChar, c ≠ '\n' := by
    intro c hc
    obtain ⟨x, hx, rfl⟩ := List.mem_map.mp hc
    have hs := (b64e_mem _ x hx).2
    intro heq
    rw [heq] at hs
    exact absurd hs (by decide)
  have hn2 : ∀ c ∈ (b64e (compress pb)).map byteChar, c ≠ '\n' := by
    intro c hc
    obtain ⟨x, hx, rfl⟩ := List.mem_map.mp hc
    have hs := (b64e_mem _ x hx).2
    intro heq
    rw [heq] at hs
    exact absurd hs (by decide)
  have hreadl : readlines (String.mk ((b64e (compress ub)).map byteChar ++
      '\n' :: ((b64e (compress pb)).map byteChar ++ ['\n']))) =
      [String.mk ((b64e (compress ub)).map byteChar ++ ['\n']),
       String.mk ((b64e (compress pb)).map byteChar ++ ['\n'])] := by
    rw [readlines,
      show (String.mk ((b64e (compress ub)).map byteChar ++
        '\n' :: ((b64e (compress pb)).map byteChar ++ ['\n']))).toList =
        (b64e (compress ub)).map byteChar ++
          '\n' :: ((b64e (compress pb)).map byteChar ++ ['\n']) from rfl,
      readlinesAux_line _ _ [] hn1,
      show (b64e (compress pb)).map byteChar ++ ['\n'] =
        (b64e (compress pb)).map byteChar ++ '\n' :: [] from rfl,
      readlinesAux_line _ _ [] hn2]
    simp [readlinesAux]
  simp only [encode_pass, get_creds, hreadl, List.get?_cons_zero, List.get?_cons_succ,
    decode_line_ok decompress (compress ub) ub h1 hd1 hu,
    decode_line_ok decompress (compress pb) pb h2 hd2 hp]

/-! ## Counterexample for C2 and concrete witnesses -/

/-- C2 counterexample.  When two fetched records share an `ifname` and both
survive the filters, the later one overwrites the earlier: the first
record's public address `8.8.8.8` (not ignored, valid, public) does not
appear in the output under its interface name. -/
theorem claim_C2_counterexample :
    add_interface_info [("1.1.1.1", [("system-ip", Field.str "1.1.1.1")])]
      (fun _ => [[("ifname", "ge0/0"), ("ip-address", "8.8.8.8")],
                 [("ifname", "ge0/0"), ("ip-address", "9.9.9.9")]]) [] =
      Except.ok [("1.1.1.1", [("system-ip", Field.str "1.1.1.1"),
        ("interfaces", Field.table [("ge0/0", "9.9.9.9")])])] ∧
    ("ge0/0" ∉ ([] : List String)) ∧
    is_ipv4 "8.8.8.8" = true ∧
    addr_private "8.8.8.8" = false ∧
    out_interface [("1.1.1.1", [("system-ip", Field.str "1.1.1.1"),
        ("interfaces", Field.table [("ge0/0", "9.9.9.9")])])] "1.1.1.1" "ge0/0" ≠
      some "8.8.8.8" := by
  refine ⟨rfl, by simp, rfl, rfl, ?_⟩
  intro h
  simp [out_interface, interfaces_table, dget] at h

theorem claim_C1_witness :
    ("ge0/0" ∉ (["ge0/0.22"] : List String)) ∧
    is_ipv4 "8.8.8.8" = true ∧ addr_private "8.8.8.8" = false :=
  claim_C1_filter_invariant
    [("1.1.1.1", [("system-ip", Field.str "1.1.1.1"), ("host-name", Field.str "r1")])]
    (fun _ => [[("ifname", "ge0/0"), ("ip-address", "8.8.8.8")],
               [("ifname", "ge0/1"), ("ip-address", "10.0.0.1")],
               [("ifname", "ge0/0.22"), ("ip-address", "9.9.9.9")]])
    ["ge0/0.22"]
    [("1.1.1.1", [("system-ip", Field.str "1.1.1.1"), ("host-name", Field.str "r1"),
                  ("interfaces", Field.table [("ge0/0", "8.8.8.8")])])]
    (by decide) rfl "1.1.1.1"
    [("system-ip", Field.str "1.1.1.1"), ("host-name", Field.str "r1"),
     ("interfaces", Field.table [("ge0/0", "8.8.8.8")])]
    (by simp) [("ge0/0", "8.8.8.8")] rfl "ge0/0" "8.8.8.8" (by simp)

theorem claim_C2_witness :
    out_interface [("2.2.2.2", [("system-ip", Field.str "2.2.2.2"),
      ("interfaces", Field.table [("ge0/1", "9.9.9.9")])])] "2.2.2.2" "ge0/1" =
      some "9.9.9.9" :=
  claim_C2_public_recorded
    [("2.2.2.2", [("system-ip", Field.str "2.2.2.2")])]
    (fun _ => [[("ifname", "ge0/1"), ("ip-address", "9.9.9.9")]])
    []
    [("2.2.2.2", [("system-ip", Field.str "2.2.2.2"),
      ("interfaces", Field.table [("ge0/1", "9.9.9.9")])])]
    (by decide) rfl "2.2.2.2" [("system-ip", Field.str "2.2.2.2")] (by simp)
    [] [] [("ifname", "ge0/1"), ("ip-address", "9.9.9.9")] rfl
    "ge0/1" "9.9.9.9" rfl (by simp) rfl ⟨151587081, 32⟩ rfl rfl (by simp)

theorem claim_C4_witness :
    fetch_raw_json (.response 500 (some (.jobj [("data", .jarr [.jnum 1])]))) =
      .ok (.jarr []) :=
  (claim_C4_fetch_errors 500).2.1 (some (.jobj [("data", .jarr [.jnum 1])]))
    (by decide) (by decide)

theorem claim_C5_witness :
    export_to_excel_rows
      [("1.1.1.1", [("system-ip", Field.str "1.1.1.1"), ("interfaces", Field.table [])]),
       ("2.2.2.2", [("system-ip", Field.str "2.2.2.2"),
                    ("interfaces", Field.table [("ge0/0", "8.8.8.8")])])]
      ["system-ip"] =
      .ok [[Field.str "1.1.1.1"],
           [Field.str "2.2.2.2", Field.str "ge0/0", Field.str "8.8.8.8"]] ∧
    export_to_html_rows
      [("1.1.1.1", [("system-ip", Field.str "1.1.1.1"), ("interfaces", Field.table [])]),
       ("2.2.2.2", [("system-ip", Field.str "2.2.2.2"),
                    ("interfaces", Field.table [("ge0/0", "8.8.8.8")])])]
      ["system-ip"] =
      .ok ["\t\t\t<tr><td>2.2.2.2</td><td>ge0/0</td><td>8.8.8.8</td></tr>\r"] :=
  ⟨(claim_C5_export_asymmetry
      [("1.1.1.1", [("system-ip", Field.str "1.1.1.1"), ("interfaces", Field.table [])]),
       ("2.2.2.2", [("system-ip", Field.str "2.2.2.2"),
                    ("interfaces", Field.table [("ge0/0", "8.8.8.8")])])]
      ["system-ip"] (by decide)).1,
   (claim_C5_export_asymmetry
      [("1.1.1.1", [("system-ip", Field.str "1.1.1.1"), ("interfaces", Field.table [])]),
       ("2.2.2.2", [("system-ip", Field.str "2.2.2.2"),
                    ("interfaces", Field.table [("ge0/0", "8.8.8.8")])])]
      ["system-ip"] (by decide)).2.1⟩

theorem claim_C6_witness :
    dget (mkRecord ["system-ip", "host-name", "version"] [("system-ip", "1.1.1.1")])
      "version" = some (Field.str "N/A") := by
  obtain ⟨out, hout, hspec, hrec⟩ := claim_C6_format
    [[("system-ip", "1.1.1.1"), ("host-name", "r1")],
     [("system-ip", "1.1.1.1"), ("host-name", "r2")]]
    ["system-ip", "host-name", "version"] (by decide)
  have hv := hrec [("system-ip", "1.1.1.1")] "version"
  rw [hv]
  simp [dget]

theorem claim_C7_witness :
    decode_pass some (encode_pass (fun l => l) [72, 105]) = Except.ok [72, 105] :=
  claim_C7_roundtrip (fun l => l) some [72, 105] (by decide) rfl

theorem claim_C9_witness :
    ([("3.3.3.3", [("system-ip", Field.str "3.3.3.3"),
        ("interfaces", Field.table [])])] : DevDict).length =
      ([("3.3.3.3", [("system-ip", Field.str "3.3.3.3")])] : DevDict).length :=
  (claim_C9_frame [("3.3.3.3", [("system-ip", Field.str "3.3.3.3")])] (fun _ => []) []
    [("3.3.3.3", [("system-ip", Field.str "3.3.3.3"), ("interfaces", Field.table [])])]
    (by decide) rfl).1

theorem claim_C10_witness :
    add_interface_info [("4.4.4.4", [])] (fun _ => [[("foo", "bar")]]) [] =
      .error (PyErr.keyError "ifname") ∨
    add_interface_info [("4.4.4.4", [])] (fun _ => [[("foo", "bar")]]) [] =
      .error (PyErr.keyError "ip-address") :=
  claim_C10_missing_field_raises [("4.4.4.4", [])] (fun _ => [[("foo", "bar")]]) []
    (by decide) "4.4.4.4" [] [("foo", "bar")] (by simp) (by simp) (Or.inl rfl)

end VEdge
